import Mathlib

/-!
Verification development for a token price-tracking service.

The definitions below are a shallow embedding of the JavaScript source:
  - the price math and swap-subscription logic of the tracker service
    (`calculateWethPrice`, `calculateTokenPriceInUsd`, `findTokenPool`,
    `subscribeToPool`, `subscribeToToken`),
  - the Mongoose `Token` schema pre-save hook (market-cap recomputation),
  - the reconciliation poller (`updateTokenPrices`, `fetchPriceData`,
    API-call budget tracking) and the batch service (`processBatch`).

JavaScript numbers appearing in the price path are modelled as exact
rationals; the one place where an infinite value can arise (division of
1 by a zero raw price) is modelled explicitly by the `JsNum` type.
BigInt arithmetic is modelled by natural-number arithmetic with explicit
floor division.  Timestamps (`new Date()`) are modelled as naturals.
-/

/-- JavaScript number as it occurs in the price pipeline: either positive
infinity (from `1 / 0`) or a finite value.  `NaN` cannot arise on these
paths (all operands are non-NaN and no `0 * Infinity` product occurs), so
it is not represented. -/
inductive JsNum where
  | inf : JsNum
  | val : ℚ → JsNum
deriving DecidableEq

/-- JavaScript comparison `p < c` for a `JsNum` against a finite bound
(`Infinity < c` is false). -/
def jsLtNum : JsNum → ℚ → Bool
  | JsNum.inf, _ => false
  | JsNum.val q, c => decide (q < c)

/-- JavaScript comparison `p > c` for a `JsNum` against a finite bound
(`Infinity > c` is true). -/
def jsGtNum : JsNum → ℚ → Bool
  | JsNum.inf, _ => true
  | JsNum.val q, c => decide (q > c)

/-- Multiplication of a possibly-infinite price by the (strictly positive
whenever present) WETH anchor price: `Infinity * w = Infinity`. -/
def jsMulPos : JsNum → ℚ → JsNum
  | JsNum.inf, _ => JsNum.inf
  | JsNum.val q, w => JsNum.val (q * w)

/-- Raw WETH/USDC quote of `calculateWethPrice` before the sanity check:
`Number((sqrtPriceBigInt * sqrtPriceBigInt * BigInt(10**12)) / (Q96 * Q96))`
with `Q96 = 2^96`, i.e. BigInt floor division. -/
def calculateWethPriceRaw (s : ℕ) : ℕ :=
  s * s * 10 ^ 12 / (2 ^ 96 * 2 ^ 96)

/-- Full `calculateWethPrice`: the raw quote is replaced by `0` when it is
non-positive or above the 1,000,000 sanity ceiling (`isNaN` is always false
on an integer quotient). -/
def calculateWethPrice (s : ℕ) : ℕ :=
  let price := calculateWethPriceRaw s
  if price = 0 ∨ price > 1000000 then 0 else price

/-- The `adjustedPrice` intermediate of `calculateTokenPriceInUsd`:
`(squared * adjustment) / denominator` with `adjustment = 10^36` and
`denominator = 2^192`, in BigInt floor division. -/
def adjustedPrice (s : ℕ) : ℕ :=
  s * s * 10 ^ 36 / 2 ^ 192

/-- The `rawPrice` of `calculateTokenPriceInUsd`:
`Number(adjustedPrice) / Number(adjustment)`, modelled exactly. -/
def rawPrice (s : ℕ) : ℚ :=
  (adjustedPrice s : ℚ) / 10 ^ 36

/-- The pool-relative token price in WETH: the raw ratio, inverted when
token0 is WETH (`1 / 0` gives JavaScript `Infinity`). -/
def priceInWeth (isToken0Weth : Bool) (s : ℕ) : JsNum :=
  if isToken0Weth then
    (if rawPrice s = 0 then JsNum.inf else JsNum.val (1 / rawPrice s))
  else JsNum.val (rawPrice s)

/-- The mutable fields of a `Token` document touched by the price paths. -/
structure TokenRec where
  price_usd : ℚ
  total_supply : ℚ
  market_cap_usd : ℚ
  volume_usd_24h : ℚ
  decimals : ℕ
  pool_address : Option ℕ
  last_updated : ℕ
  last_trade : ℕ
deriving DecidableEq

/-- The `TokenSchema.pre('save')` middleware: recomputes
`market_cap_usd = price_usd * (total_supply / 10^decimals)`. -/
def preSaveHook (rec : TokenRec) : TokenRec :=
  { rec with market_cap_usd := rec.price_usd * (rec.total_supply / 10 ^ rec.decimals) }

/-- A Mongoose `save()`: persists the document after running the
pre-save middleware. -/
def saveToken (rec : TokenRec) : TokenRec :=
  preSaveHook rec

/-- The `findOneAndUpdate` issued by the `Swap` handler registered in
`subscribeToPool`: sets `price_usd`, `last_updated` and `last_trade`
unconditionally; no middleware runs, so `market_cap_usd` is untouched. -/
def swapPathWrite (rec : TokenRec) (price : ℚ) (now : ℕ) : TokenRec :=
  { rec with price_usd := price, last_updated := now, last_trade := now }

/-- The `findOneAndUpdate` issued by `retrieveInitialWethPrice` and by the
`trackWethPrice` swap handler: sets `price_usd` and `last_updated` on the
WETH token document; no middleware runs. -/
def wethAnchorWrite (rec : TokenRec) (price : ℚ) (now : ℕ) : TokenRec :=
  { rec with price_usd := price, last_updated := now }

/-- Shallow embedding of `calculateTokenPriceInUsd`.  Inputs: the current
anchor price (`this.wethPriceUsd`, `none` when not yet populated), which
pool side is WETH, the pool's `sqrtPriceX96`, the `totalSupply()` read from
chain, the stored token document (`none` when `findOne` misses) and the
write-time timestamp.  Returns the value the function returns together with
the post-state of the stored document (`rec` unchanged when no store write
happens).  The JavaScript sanity check is
`isNaN(priceUsd) || priceUsd < 0 || priceUsd > 1000000`; `isNaN` is always
false in this model. -/
def calculateTokenPriceInUsd (wethPriceUsd : Option ℚ)
    (isToken0Weth isToken1Weth : Bool) (s : ℕ) (totalSupply : ℚ)
    (rec : Option TokenRec) (now : ℕ) : ℚ × Option TokenRec :=
  match wethPriceUsd with
  | none => (0, rec)
  | some w =>
    if !isToken0Weth && !isToken1Weth then (0, rec)
    else
      let priceUsd := jsMulPos (priceInWeth isToken0Weth s) w
      if jsLtNum priceUsd 0 || jsGtNum priceUsd 1000000 then (0, rec)
      else
        match priceUsd, rec with
        | JsNum.val q, some r =>
            (q, some (saveToken
              { r with price_usd := q, total_supply := totalSupply,
                       last_updated := now }))
        | JsNum.val q, none => (q, none)
        | JsNum.inf, _ => (0, rec)

/-- The subscription-registry view of `subscribeToPool`: the process-wide
collection of attached `Swap` handlers, as pairs of token address and pool
address.  `subscribeToPool` unconditionally attaches a fresh handler via
`poolContract.on('Swap', ...)`; no registry lookup precedes it. -/
def subscribeToPool (listeners : List (ℕ × ℕ)) (poolAddress tokenAddr : ℕ) :
    List (ℕ × ℕ) :=
  listeners ++ [(tokenAddr, poolAddress)]

/-- Number of live swap listeners attached for a given token address. -/
def countTokenListeners (listeners : List (ℕ × ℕ)) (tokenAddr : ℕ) : ℕ :=
  (listeners.filter (fun e => e.1 == tokenAddr)).length

/-- The ordered fee tiers probed by `findTokenPool` and `findWethUsdcPool`. -/
def feeTiers : List ℕ := [500, 3000, 10000]

/-- The probing loop of `findTokenPool`: returns the pool reported for the
first fee tier whose factory answer is not the zero address.  The factory
lookup for the fixed token pair is abstracted as `g : fee tier to reported
pool address`, with `0` standing for the zero address. -/
def getPoolFirst (g : ℕ → ℕ) : List ℕ → Option ℕ
  | [] => none
  | f :: rest => if g f ≠ 0 then some (g f) else getPoolFirst g rest

/-- Shallow embedding of `findTokenPool` (and of `findWethUsdcPool`, which
runs the same loop over the same tiers). -/
def findTokenPool (g : ℕ → ℕ) : Option ℕ :=
  getPoolFirst g feeTiers

/-- The fee tiers actually probed by the loop of `findTokenPool`, in order:
probing stops right after the first tier whose answer is non-zero. -/
def probedTiers (g : ℕ → ℕ) : List ℕ → List ℕ
  | [] => []
  | f :: rest => if g f ≠ 0 then [f] else f :: probedTiers g rest

/-- Tiers probed by a full `findTokenPool` run. -/
def findTokenPoolProbes (g : ℕ → ℕ) : List ℕ :=
  probedTiers g feeTiers

/-- The `trackTokenPrices` loop: for each loaded token (given with its
factory lookup), resolve a pool and, when one is found, attach a swap
listener; tokens without a pool are skipped.  Nothing is ever removed from
the listener collection. -/
def trackTokenPrices (listeners : List (ℕ × ℕ))
    (tokens : List (ℕ × (ℕ → ℕ))) : List (ℕ × ℕ) :=
  tokens.foldl
    (fun st tok =>
      match findTokenPool tok.2 with
      | some pool => subscribeToPool st pool tok.1
      | none => st)
    listeners

/-- Tracker initialization as far as listener state is concerned: start
from the given listener collection (empty for a fresh process; on a
reconnect, `initialize` is re-entered without detaching the previously
attached handlers) and subscribe every loaded token. -/
def initTracker (listeners : List (ℕ × ℕ))
    (tokens : List (ℕ × (ℕ → ℕ))) : List (ℕ × ℕ) :=
  trackTokenPrices listeners tokens

/-- The exported `subscribeToToken(contractAddress)`: when the module-level
tracker instance is absent it runs full initialization, otherwise it does
nothing; it then resolves `true`.  The body never uses `contractAddress`
(the per-token subscription logic is an explicit placeholder). -/
def subscribeToToken (tokens : List (ℕ × (ℕ → ℕ))) (contractAddress : ℕ)
    (trackerInstance : Option (List (ℕ × ℕ))) :
    Bool × Option (List (ℕ × ℕ)) :=
  match trackerInstance with
  | some t => (true, some t)
  | none => (true, some (initTracker [] tokens))

/-- Per-address data extracted from the aggregator response by
`fetchGeckoTerminalData` in the batch service. -/
structure GeckoData where
  price_usd : ℚ
  volume_usd_24h : ℚ
  total_supply : ℚ
  decimals : ℕ
  pool_address : Option ℕ
deriving DecidableEq

/-- The per-token body of `processBatch` in the batch service, applied to
one stored token document.  `data` is the aggregator entry for the token's
address (`none` when the address is absent from the response, in which case
the code falls back to `{}` and every field read is `undefined`);
`chainSupply` is the `totalSupply()` contract read (`none` on timeout or
failure, in which case the stored value is kept).  JavaScript
`a || b || c` fallback chains treat `0`, `undefined` and `null` as falsy.
The final `save()` runs the pre-save middleware. -/
def processBatchToken (rec : TokenRec) (data : Option GeckoData)
    (chainSupply : Option ℚ) (now : ℕ) : TokenRec :=
  let totalSupply : ℚ :=
    match chainSupply with
    | some s => s
    | none => if rec.total_supply = 0 then 0 else rec.total_supply
  let rec1 :=
    if totalSupply ≠ rec.total_supply then { rec with total_supply := totalSupply }
    else rec
  let price : ℚ :=
    match data with
    | some d =>
        if d.price_usd ≠ 0 then d.price_usd
        else if rec.price_usd ≠ 0 then rec.price_usd else 0
    | none => if rec.price_usd ≠ 0 then rec.price_usd else 0
  let volume : ℚ :=
    match data with
    | some d =>
        if d.volume_usd_24h ≠ 0 then d.volume_usd_24h
        else if rec.volume_usd_24h ≠ 0 then rec.volume_usd_24h else 0
    | none => if rec.volume_usd_24h ≠ 0 then rec.volume_usd_24h else 0
  let decs : ℕ :=
    match data with
    | some d =>
        if d.decimals ≠ 0 then d.decimals
        else if rec.decimals ≠ 0 then rec.decimals else 18
    | none => if rec.decimals ≠ 0 then rec.decimals else 18
  let pool : Option ℕ :=
    match data with
    | some d =>
        match d.pool_address with
        | some p => some p
        | none => rec.pool_address
    | none => rec.pool_address
  saveToken
    { rec1 with price_usd := price, volume_usd_24h := volume,
                decimals := decs, pool_address := pool, last_updated := now }

/-- A `TokenPrice` staleness record as read by the reconciliation poller:
contract address and last-updated timestamp. -/
structure PriceRec where
  contractAddress : ℕ
  last_updated : ℕ
deriving DecidableEq

/-- Ascending staleness order used by the poller's Mongo query
`sort(\x7b last_updated: 1 \x7d)`. -/
def byStaleness (a b : PriceRec) : Prop :=
  a.last_updated ≤ b.last_updated

instance : DecidableRel byStaleness :=
  fun a b => Nat.decLe a.last_updated b.last_updated

instance : IsTotal PriceRec byStaleness :=
  ⟨fun a b => Nat.le_total a.last_updated b.last_updated⟩

instance : IsTrans PriceRec byStaleness :=
  ⟨fun _ _ _ => Nat.le_trans⟩

/-- Price records sorted oldest-updated first. -/
def oldestFirst (prices : List PriceRec) : List PriceRec :=
  List.insertionSort byStaleness prices

/-- The selection step of `updateTokenPrices`: skip everything when the
counter has reached 29 of the 30-call ceiling; otherwise take the 300
oldest-updated price records (falling back to the raw token list when no
price records exist), and cut the list down to
`(30 - apiCallsThisMinute) * 30` addresses — what the remaining budget can
cover at 30 addresses per call. -/
def selectTokens (prices : List PriceRec) (allTokens : List ℕ)
    (apiCallsThisMinute : ℕ) : List ℕ :=
  if apiCallsThisMinute ≥ 29 then []
  else if allTokens.isEmpty then []
  else
    let oldestUpdated := (oldestFirst prices).take 300
    let tokenAddresses :=
      if oldestUpdated.length > 0 then oldestUpdated.map (·.contractAddress)
      else allTokens
    tokenAddresses.take ((30 - apiCallsThisMinute) * 30)

/-- Partition of the selected addresses into batches of 30, mirroring the
`for (let i = 0; i < tokensToProcess.length; i += BATCH_SIZE)` loop.  The
first argument is fuel, always instantiated with the list length. -/
def chunksOfAux {α : Type} : ℕ → List α → List (List α)
  | 0, _ => []
  | _, [] => []
  | fuel + 1, a :: l => ((a :: l).take 30) :: chunksOfAux fuel ((a :: l).drop 30)

/-- Batches of 30 produced from the selected addresses. -/
def chunksOf30 {α : Type} (l : List α) : List (List α) :=
  chunksOfAux l.length l

/-- Per-address data produced by `fetchPriceData` in the poller service
(string-valued fields of the response are omitted). -/
structure FetchedTokenData where
  price_usd : ℚ
  fdv_usd : ℚ
  volume_usd : ℚ
  total_reserve_in_usd : ℚ
  total_supply : ℚ
deriving DecidableEq

/-- A `TokenPrice` document as written by the poller's bulk upsert. -/
structure PriceDoc where
  price_usd : ℚ
  fdv_usd : ℚ
  volume_usd : ℚ
  total_reserve_in_usd : ℚ
  total_supply : ℚ
  last_updated : ℕ
deriving DecidableEq

/-- One `updateOne ... upsert: true` against the `TokenPrice` collection,
keyed by contract address: replace the first document with that key, or
append a new one when no document matches. -/
def upsertDoc : List (ℕ × PriceDoc) → ℕ → PriceDoc → List (ℕ × PriceDoc)
  | [], addr, doc => [(addr, doc)]
  | e :: rest, addr, doc =>
      if e.1 = addr then (addr, doc) :: rest else e :: upsertDoc rest addr doc

/-- Lookup of a `TokenPrice` document by contract address. -/
def lookupDoc : List (ℕ × PriceDoc) → ℕ → Option PriceDoc
  | [], _ => none
  | e :: rest, addr => if e.1 = addr then some e.2 else lookupDoc rest addr

/-- The written document for one response entry: the fetched fields plus
the write-time `last_updated` (the spread `\x7b ...data, last_updated: new
Date() \x7d` overrides the fetch-time stamp). -/
def docOfFetched (d : FetchedTokenData) (now : ℕ) : PriceDoc :=
  ⟨d.price_usd, d.fdv_usd, d.volume_usd, d.total_reserve_in_usd,
    d.total_supply, now⟩

/-- The bulk write of one poller batch: one upsert per address present in
the aggregator response (`Object.entries(priceData.tokens)`); addresses
absent from the response simply contribute no operation. -/
def applyBulkUpsert (store : List (ℕ × PriceDoc))
    (response : List (ℕ × FetchedTokenData)) (now : ℕ) : List (ℕ × PriceDoc) :=
  response.foldl (fun st e => upsertDoc st e.1 (docOfFetched e.2 now)) store

/-- An observable event of the poller's API budget machinery: the
60-second `setInterval` counter reset of `setupApiCallTracking`, or one
aggregator call issued by `fetchPriceData`. -/
inductive ApiEvent where
  | reset : ApiEvent
  | call : ApiEvent
deriving DecidableEq

/-- A timed event trace: timestamps in seconds paired with events. -/
abbrev ApiTrace := List (ℕ × ApiEvent)

/-- Validity of a trace with respect to the code's guards, starting from a
given counter value, last-seen time and next scheduled reset time:
timestamps never decrease, resets happen exactly on the 60-second
schedule and reset the counter to zero, and a call is only issued while
the counter is at most 28 (`updateTokenPrices` returns or breaks once
`apiCallsThisMinute >= 29`), after which the counter increments. -/
def validApiTraceFrom (counter lastTime nextReset : ℕ) : ApiTrace → Bool
  | [] => true
  | (t, ApiEvent.reset) :: rest =>
      decide (lastTime ≤ t) && decide (t = nextReset) &&
        validApiTraceFrom 0 t (nextReset + 60) rest
  | (t, ApiEvent.call) :: rest =>
      decide (lastTime ≤ t) && decide (counter ≤ 28) &&
        validApiTraceFrom (counter + 1) t nextReset rest

/-- Validity of a full trace from process start: counter zero, clock at
zero, first reset due at second 60. -/
def validApiTrace (tr : ApiTrace) : Bool :=
  validApiTraceFrom 0 0 60 tr

/-- The counter value after consuming a trace from a given start value:
zeroed by each reset, incremented by each call.  This is the number of
calls issued since the last reset. -/
def callsSinceResetAux (c : ℕ) : ApiTrace → ℕ
  | [] => c
  | (_, ApiEvent.reset) :: rest => callsSinceResetAux 0 rest
  | (_, ApiEvent.call) :: rest => callsSinceResetAux (c + 1) rest

/-- Calls issued since the last counter reset, over a whole trace. -/
def callsSinceReset (tr : ApiTrace) : ℕ :=
  callsSinceResetAux 0 tr

/-- Number of aggregator calls issued within the rolling one-minute window
starting at second `w`. -/
def callsInWindow (tr : ApiTrace) (w : ℕ) : ℕ :=
  (tr.filter
    (fun e => e.2 == ApiEvent.call && decide (w ≤ e.1) && decide (e.1 < w + 60))).length

/-- C5: the pool resolver probes the fee tiers in the fixed order
[500, 3000, 10000] and returns the first pool address the factory reports
that is not the zero address, performing no further probes after a match;
it returns null exactly when every tier returns the zero address. -/
theorem findTokenPool_first_match (g : ℕ → ℕ) :
    (findTokenPool g = none ↔ g 500 = 0 ∧ g 3000 = 0 ∧ g 10000 = 0) ∧
    (g 500 ≠ 0 → findTokenPool g = some (g 500) ∧ findTokenPoolProbes g = [500]) ∧
    (g 500 = 0 → g 3000 ≠ 0 →
      findTokenPool g = some (g 3000) ∧ findTokenPoolProbes g = [500, 3000]) ∧
    (g 500 = 0 → g 3000 = 0 → g 10000 ≠ 0 →
      findTokenPool g = some (g 10000) ∧
        findTokenPoolProbes g = [500, 3000, 10000]) := by
  by_cases h1 : g 500 = 0 <;> by_cases h2 : g 3000 = 0 <;> by_cases h3 : g 10000 = 0 <;>
    simp [findTokenPool, findTokenPoolProbes, getPoolFirst, probedTiers, feeTiers,
      h1, h2, h3]

/-- Witness for C5, matching Scenario B of the specification: the factory
reports the zero address for the 500 and 3000 tiers and pool 7 for the
10000 tier, so the resolver probes all three tiers and returns pool 7. -/
theorem findTokenPool_first_match_witness :
    findTokenPool (fun f => if f = 10000 then 7 else 0) = some 7 ∧
    findTokenPoolProbes (fun f => if f = 10000 then 7 else 0) = [500, 3000, 10000] :=
  (findTokenPool_first_match (fun f => if f = 10000 then 7 else 0)).2.2.2
    (by decide) (by decide) (by decide)

/-- C4 counterexample: subscribing the same token to the same pool twice
leaves two attached swap handlers, not one — there is no registry guard in
`subscribeToPool`. -/
theorem subscribeToPool_duplicate_listeners :
    countTokenListeners (subscribeToPool (subscribeToPool [] 7 5) 7 5) 5 = 2 ∧
    countTokenListeners (subscribeToPool (subscribeToPool [] 7 5) 7 5) 5 ≠ 1 := by
  decide

/-- C4 amended: every `subscribeToPool` call unconditionally appends a
fresh listener handle (so n calls for one token leave n handles), and the
re-subscription pass run by a reconnect's initialization retains every
previously attached handle — nothing is ever invalidated. -/
theorem subscribeToPool_appends :
    (∀ (st : List (ℕ × ℕ)) (p t : ℕ),
        subscribeToPool st p t = st ++ [(t, p)] ∧
        countTokenListeners (subscribeToPool st p t) t =
          countTokenListeners st t + 1) ∧
    (∀ (st : List (ℕ × ℕ)) (tokens : List (ℕ × (ℕ → ℕ))),
        ∃ rest, initTracker st tokens = st ++ rest) := by
  constructor
  · intro st p t
    refine ⟨rfl, ?_⟩
    simp [countTokenListeners, subscribeToPool]
  · intro st tokens
    induction tokens generalizing st with
    | nil => exact ⟨[], by simp [initTracker, trackTokenPrices]⟩
    | cons tok rest ih =>
      obtain ⟨s0, hs0⟩ : ∃ s0,
          (match findTokenPool tok.2 with
            | some pool => subscribeToPool st pool tok.1
            | none => st) = st ++ s0 := by
        cases h : findTokenPool tok.2 with
        | none => exact ⟨[], by simp⟩
        | some pool => exact ⟨[(tok.1, pool)], rfl⟩
      obtain ⟨r, hr⟩ := ih (st ++ s0)
      refine ⟨s0 ++ r, ?_⟩
      have hstep : initTracker st (tok :: rest) = initTracker (st ++ s0) rest := by
        simp only [initTracker, trackTokenPrices, List.foldl_cons]
        rw [hs0]
      rw [hstep, hr, List.append_assoc]

/-- C10: the exported `subscribeToToken` resolves to `true` for every
input address, its result does not depend on the address at all (so no
per-token subscription is established), and when the tracker instance
already exists the listener state is left unchanged. -/
theorem subscribeToToken_placeholder :
    ∀ (tokens : List (ℕ × (ℕ → ℕ))) (a b : ℕ)
      (st : Option (List (ℕ × ℕ))) (t : List (ℕ × ℕ)),
      (subscribeToToken tokens a st).1 = true ∧
      subscribeToToken tokens a st = subscribeToToken tokens b st ∧
      (subscribeToToken tokens a (some t)).2 = some t := by
  intro tokens a b st t
  refine ⟨?_, ?_, rfl⟩ <;> cases st <;> rfl

/-- C8 counterexample: the computed quote is not strictly monotone in the
scaled square-root price — the BigInt floor division collapses distinct
small inputs to the same quote (inputs 1 and 2 both quote to 0, on the
WETH path and on the token path alike). -/
theorem price_math_not_strictly_monotone :
    calculateWethPriceRaw 1 = 0 ∧ calculateWethPriceRaw 2 = 0 ∧
    ¬ calculateWethPriceRaw 1 < calculateWethPriceRaw 2 ∧
    calculateWethPrice 1 = calculateWethPrice 2 ∧
    adjustedPrice 1 = 0 ∧ adjustedPrice 2 = 0 := by
  decide

/-- C8 amended: for fixed decimals the computed quote is monotone
non-decreasing (but not strictly increasing) in the scaled square-root
price, on the WETH anchor path and on the token path's raw ratio. -/
theorem price_math_monotone (a b : ℕ) (h : a ≤ b) :
    calculateWethPriceRaw a ≤ calculateWethPriceRaw b ∧
    adjustedPrice a ≤ adjustedPrice b ∧ rawPrice a ≤ rawPrice b := by
  have hsq : a * a ≤ b * b := Nat.mul_le_mul h h
  have h12 : a * a * 10 ^ 12 ≤ b * b * 10 ^ 12 :=
    Nat.mul_le_mul_right _ hsq
  have h36 : a * a * 10 ^ 36 ≤ b * b * 10 ^ 36 :=
    Nat.mul_le_mul_right _ hsq
  have hadj : adjustedPrice a ≤ adjustedPrice b :=
    Nat.div_le_div_right h36
  refine ⟨Nat.div_le_div_right h12, hadj, ?_⟩
  unfold rawPrice
  have hc : ((adjustedPrice a : ℚ)) ≤ (adjustedPrice b : ℚ) :=
    Nat.cast_le.mpr hadj
  exact div_le_div_of_nonneg_right hc (by norm_num) |>.trans_eq rfl

/-- Witness for C8 amended at inputs 2 and 3. -/
theorem price_math_monotone_witness :
    calculateWethPriceRaw 2 ≤ calculateWethPriceRaw 3 ∧
    adjustedPrice 2 ≤ adjustedPrice 3 ∧ rawPrice 2 ≤ rawPrice 3 :=
  price_math_monotone 2 3 (by decide)

/-- C2 counterexample: the swap-path writer mutates the record even when
its own timestamp (5) is older than the record's current last-updated
(10) — there is no guarded merge, so the write decreases last_updated and
overwrites the fresher price. -/
theorem swapPathWrite_stale_overwrite :
    (swapPathWrite ⟨1, 1, 1, 0, 0, none, 10, 10⟩ 2 5).last_updated = 5 ∧
    (5 : ℕ) < 10 ∧
    swapPathWrite ⟨1, 1, 1, 0, 0, none, 10, 10⟩ 2 5 ≠ ⟨1, 1, 1, 0, 0, none, 10, 10⟩ ∧
    (swapPathWrite ⟨1, 1, 1, 0, 0, none, 10, 10⟩ 2 5).price_usd = 2 :=
  ⟨rfl, by decide,
    fun h => absurd (congrArg TokenRec.last_updated h) (by decide), rfl⟩

/-- C2 amended: both writers apply unconditional last-write-wins updates.
The swap path sets price_usd and stamps last_updated with its own time for
every input, with no comparison against the record's current timestamp;
the batch path likewise always stamps last_updated with its own time and
overwrites price_usd with the aggregator value whenever one is present and
non-zero.  Both paths write price_usd, so field ownership overlaps and a
stale value can clobber a fresher one. -/
theorem writers_unconditional :
    (∀ (rec : TokenRec) (p : ℚ) (now : ℕ),
        (swapPathWrite rec p now).price_usd = p ∧
        (swapPathWrite rec p now).last_updated = now) ∧
    (∀ (rec : TokenRec) (data : Option GeckoData) (cs : Option ℚ) (now : ℕ),
        (processBatchToken rec data cs now).last_updated = now) ∧
    (∀ (rec : TokenRec) (d : GeckoData) (cs : Option ℚ) (now : ℕ),
        d.price_usd ≠ 0 →
        (processBatchToken rec (some d) cs now).price_usd = d.price_usd) := by
  refine ⟨fun rec p now => ⟨rfl, rfl⟩, fun rec data cs now => rfl, ?_⟩
  intro rec d cs now h
  simp [processBatchToken, saveToken, preSaveHook, h]

/-- Witness for C2 amended: a batch write carrying aggregator price 3
overwrites the stored price 1. -/
theorem writers_unconditional_witness :
    (processBatchToken ⟨1, 1, 1, 0, 18, none, 10, 0⟩
        (some ⟨3, 4, 5, 18, none⟩) none 4).price_usd = 3 :=
  writers_unconditional.2.2 ⟨1, 1, 1, 0, 18, none, 10, 0⟩ ⟨3, 4, 5, 18, none⟩
    none 4 (by norm_num)

/-- C9 counterexample: the WETH anchor write path updates price_usd via
findOneAndUpdate without recomputing the valuation: after writing price 2
into a record with supply 1 and 0 decimals, the stored market_cap_usd is
still 1 while price times decimal-adjusted supply is 2. -/
theorem wethAnchorWrite_stale_market_cap :
    (wethAnchorWrite ⟨1, 1, 1, 0, 0, none, 0, 0⟩ 2 5).market_cap_usd = 1 ∧
    (wethAnchorWrite ⟨1, 1, 1, 0, 0, none, 0, 0⟩ 2 5).price_usd *
      ((wethAnchorWrite ⟨1, 1, 1, 0, 0, none, 0, 0⟩ 2 5).total_supply /
        10 ^ (wethAnchorWrite ⟨1, 1, 1, 0, 0, none, 0, 0⟩ 2 5).decimals) = 2 ∧
    (1 : ℚ) ≠ 2 := by
  refine ⟨rfl, ?_, by norm_num⟩
  show (2 : ℚ) * ((1 : ℚ) / 10 ^ (0 : ℕ)) = 2
  norm_num

/-- C9 amended: only the save-based write paths recompute the valuation.
A save (and hence the batch-service write and the store write inside
calculateTokenPriceInUsd) leaves the record with market_cap_usd equal to
price_usd times decimal-adjusted supply, but the findOneAndUpdate paths
(WETH anchor writes and the swap handler's price write) change price_usd
while leaving market_cap_usd untouched. -/
theorem market_cap_recomputation_paths :
    (∀ rec : TokenRec,
        (saveToken rec).market_cap_usd =
          (saveToken rec).price_usd *
            ((saveToken rec).total_supply / 10 ^ (saveToken rec).decimals)) ∧
    (∀ (rec : TokenRec) (data : Option GeckoData) (cs : Option ℚ) (now : ℕ),
        (processBatchToken rec data cs now).market_cap_usd =
          (processBatchToken rec data cs now).price_usd *
            ((processBatchToken rec data cs now).total_supply /
              10 ^ (processBatchToken rec data cs now).decimals)) ∧
    (∀ (w : Option ℚ) (t0 t1 : Bool) (s : ℕ) (sup : ℚ)
        (rec : Option TokenRec) (now : ℕ),
        (calculateTokenPriceInUsd w t0 t1 s sup rec now).2 = rec ∨
        ∃ r', (calculateTokenPriceInUsd w t0 t1 s sup rec now).2 = some r' ∧
          r'.market_cap_usd = r'.price_usd * (r'.total_supply / 10 ^ r'.decimals)) ∧
    (∀ (rec : TokenRec) (p : ℚ) (now : ℕ),
        (wethAnchorWrite rec p now).market_cap_usd = rec.market_cap_usd ∧
        (swapPathWrite rec p now).market_cap_usd = rec.market_cap_usd) := by
  refine ⟨fun rec => rfl, fun rec data cs now => rfl, ?_,
    fun rec p now => ⟨rfl, rfl⟩⟩
  intro w t0 t1 s sup rec now
  unfold calculateTokenPriceInUsd
  cases w with
  | none => exact Or.inl rfl
  | some wq =>
    dsimp only
    split
    · exact Or.inl rfl
    · split
      · exact Or.inl rfl
      · split
        · exact Or.inr ⟨_, rfl, rfl⟩
        · exact Or.inl rfl
        · exact Or.inl rfl

/-- C3 counterexample: a trace that respects every guard in the code — 29
calls late in the first counter window, the scheduled counter reset at
second 60, then 29 more calls — issues 58 aggregator calls inside the
rolling one-minute window starting at second 30, far above the 30-call
ceiling. -/
theorem rolling_window_budget_exceeded :
    validApiTrace
        (List.replicate 29 ((54 : ℕ), ApiEvent.call) ++
          ((60, ApiEvent.reset) :: List.replicate 29 (62, ApiEvent.call))) = true ∧
    callsInWindow
        (List.replicate 29 ((54 : ℕ), ApiEvent.call) ++
          ((60, ApiEvent.reset) :: List.replicate 29 (62, ApiEvent.call))) 30 = 58 ∧
    ¬ (58 : ℕ) ≤ 30 := by
  decide

/-- Helper: along any valid trace the counter — the number of calls since
the last reset — never exceeds 29, because a call is only admitted while
the counter is at most 28. -/
theorem validApiTraceFrom_counter_bound :
    ∀ (p s : ApiTrace) (c t r : ℕ),
      validApiTraceFrom c t r (p ++ s) = true → c ≤ 29 →
      callsSinceResetAux c p ≤ 29 := by
  intro p
  induction p with
  | nil => intro s c t r _ hc; exact hc
  | cons e rest ih =>
    intro s c t r hv hc
    match e with
    | (t', ApiEvent.reset) =>
      simp only [List.cons_append, validApiTraceFrom, Bool.and_eq_true,
        decide_eq_true_eq] at hv
      show callsSinceResetAux 0 rest ≤ 29
      exact ih s 0 t' (r + 60) hv.2 (by omega)
    | (t', ApiEvent.call) =>
      simp only [List.cons_append, validApiTraceFrom, Bool.and_eq_true,
        decide_eq_true_eq] at hv
      show callsSinceResetAux (c + 1) rest ≤ 29
      exact ih s (c + 1) t' r hv.2 (by omega)

/-- C3 amended: the budget is enforced against fixed counter windows, not
a rolling window — the counter is reset every 60 seconds and a call is
issued only while it is at most 28, so after any prefix of a valid trace
at most 29 calls have been issued since the last reset (at most 29 per
fixed window), while a rolling window spanning a reset boundary can see up
to 58 calls. -/
theorem fixed_window_call_bound (tr p s : ApiTrace) (htr : tr = p ++ s)
    (hv : validApiTrace tr = true) : callsSinceReset p ≤ 29 := by
  subst htr
  exact validApiTraceFrom_counter_bound p s 0 0 60 hv (by omega)

/-- Witness for C3 amended on a one-call trace. -/
theorem fixed_window_call_bound_witness :
    callsSinceReset [((5 : ℕ), ApiEvent.call)] ≤ 29 :=
  fixed_window_call_bound [((5 : ℕ), ApiEvent.call)]
    [((5 : ℕ), ApiEvent.call)] [] rfl (by decide)

/-- C1 counterexample: on the token swap path a computed quote of exactly
zero passes the sanity check (which only rejects negative, NaN and
above-ceiling values) and is written to the store: with the anchor at
3000 and a tiny sqrtPriceX96 of 1000 on a pool whose token1 is WETH, the
quote is 0 and the store record is mutated — the prior snapshot is not
retained, contradicting the claim that only strictly positive quotes are
written. -/
theorem calculateTokenPriceInUsd_zero_quote_written :
    (calculateTokenPriceInUsd (some 3000) false true 1000 5
        (some ⟨1, 1, 0, 0, 0, none, 0, 0⟩) 7).1 = 0 ∧
    (calculateTokenPriceInUsd (some 3000) false true 1000 5
        (some ⟨1, 1, 0, 0, 0, none, 0, 0⟩) 7).2 =
      some ⟨0, 5, 0, 0, 0, none, 7, 0⟩ ∧
    some (⟨0, 5, 0, 0, 0, none, 7, 0⟩ : TokenRec) ≠
      some (⟨1, 1, 0, 0, 0, none, 0, 0⟩ : TokenRec) := by
  have hadj : adjustedPrice 1000 = 0 := by decide
  have hraw : rawPrice 1000 = 0 := by simp [rawPrice, hadj]
  have hmul : jsMulPos (priceInWeth false 1000) 3000 = JsNum.val 0 := by
    simp [priceInWeth, hraw, jsMulPos]
  have hlt : jsLtNum (JsNum.val 0) 0 = false := by
    simp [jsLtNum]
  have hgt : jsGtNum (JsNum.val 0) 1000000 = false := by
    simp only [jsGtNum, decide_eq_false_iff_not]
    norm_num
  refine ⟨?_, ?_, by simp⟩ <;>
    simp [calculateTokenPriceInUsd, hmul, hlt, hgt, saveToken, preSaveHook]

/-- C1 amended: every store mutation performed by calculateTokenPriceInUsd
writes a finite quote that is non-negative (zero included) and at most
1,000,000, stamped with the write time; when the computed quote fails the
sanity check (negative or above the ceiling — infinite quotes fail the
ceiling test) no store mutation occurs, and when the anchor price is
absent the function returns 0 with no store mutation. -/
theorem calculateTokenPriceInUsd_write_guard :
    (∀ (w : Option ℚ) (t0 t1 : Bool) (s : ℕ) (sup : ℚ)
        (rec : Option TokenRec) (now : ℕ),
        (calculateTokenPriceInUsd w t0 t1 s sup rec now).2 = rec ∨
        ∃ r', (calculateTokenPriceInUsd w t0 t1 s sup rec now).2 = some r' ∧
          0 ≤ r'.price_usd ∧ r'.price_usd ≤ 1000000 ∧ r'.last_updated = now) ∧
    (∀ (wq : ℚ) (t0 t1 : Bool) (s : ℕ) (sup : ℚ)
        (rec : Option TokenRec) (now : ℕ),
        (jsLtNum (jsMulPos (priceInWeth t0 s) wq) 0 ||
          jsGtNum (jsMulPos (priceInWeth t0 s) wq) 1000000) = true →
        (calculateTokenPriceInUsd (some wq) t0 t1 s sup rec now).2 = rec) ∧
    (∀ (t0 t1 : Bool) (s : ℕ) (sup : ℚ) (rec : Option TokenRec) (now : ℕ),
        calculateTokenPriceInUsd none t0 t1 s sup rec now = (0, rec)) := by
  refine ⟨?_, ?_, fun t0 t1 s sup rec now => rfl⟩
  · intro w t0 t1 s sup rec now
    unfold calculateTokenPriceInUsd
    cases w with
    | none => exact Or.inl rfl
    | some wq =>
      dsimp only
      split
      · exact Or.inl rfl
      · split
        next hguard => exact Or.inl rfl
        next hguard =>
          have hfalse : (jsLtNum (jsMulPos (priceInWeth t0 s) wq) 0 ||
              jsGtNum (jsMulPos (priceInWeth t0 s) wq) 1000000) = false := by
            revert hguard
            cases jsLtNum (jsMulPos (priceInWeth t0 s) wq) 0 ||
              jsGtNum (jsMulPos (priceInWeth t0 s) wq) 1000000 <;> simp
          split
          next q r heq =>
            rw [heq] at hfalse
            simp only [jsLtNum, jsGtNum, Bool.or_eq_false_iff,
              decide_eq_false_iff_not, not_lt] at hfalse
            exact Or.inr ⟨_, rfl, hfalse.1, hfalse.2, rfl⟩
          next q heq => exact Or.inl rfl
          next heq => exact Or.inl rfl
  · intro wq t0 t1 s sup rec now h
    unfold calculateTokenPriceInUsd
    dsimp only
    split
    · rfl
    · simp only [h]

/-- Witness for C1 amended: with the anchor at 3000 and a large
sqrtPriceX96 the quote is 3,072,000, which exceeds the 1,000,000 ceiling,
so the prior stored record is retained unchanged. -/
theorem calculateTokenPriceInUsd_write_guard_witness :
    (calculateTokenPriceInUsd (some 3000) false true (2 ^ 101) 5
        (some ⟨1, 1, 0, 0, 0, none, 0, 0⟩) 7).2 =
      some ⟨1, 1, 0, 0, 0, none, 0, 0⟩ :=
  calculateTokenPriceInUsd_write_guard.2.1 3000 false true (2 ^ 101) 5
    (some ⟨1, 1, 0, 0, 0, none, 0, 0⟩) 7 (by
      have hadj : adjustedPrice (2 ^ 101) = 1024 * 10 ^ 36 := by decide
      have hraw : rawPrice (2 ^ 101) = 1024 := by
        rw [rawPrice, hadj]
        push_cast
        norm_num
      simp only [priceInWeth, Bool.false_eq_true, if_false, hraw, jsMulPos,
        jsLtNum, jsGtNum, decide_eq_true_eq, Bool.or_eq_true,
        decide_eq_false_iff_not]
      norm_num)

/-- Helper: looking up the upserted address finds the upserted document. -/
theorem lookupDoc_upsertDoc_self (store : List (ℕ × PriceDoc)) (addr : ℕ)
    (doc : PriceDoc) : lookupDoc (upsertDoc store addr doc) addr = some doc := by
  induction store with
  | nil => simp [upsertDoc, lookupDoc]
  | cons e rest ih =>
    by_cases h : e.1 = addr <;> simp [upsertDoc, lookupDoc, h, ih]

/-- Helper: upserting one address leaves lookups of any other address
unchanged. -/
theorem lookupDoc_upsertDoc_ne (store : List (ℕ × PriceDoc)) (a addr : ℕ)
    (doc : PriceDoc) (h : a ≠ addr) :
    lookupDoc (upsertDoc store a doc) addr = lookupDoc store addr := by
  induction store with
  | nil => simp [upsertDoc, lookupDoc, h]
  | cons e rest ih =>
    by_cases he : e.1 = a
    · simp [upsertDoc, he, lookupDoc, h]
    · by_cases ha : e.1 = addr <;>
        simp [upsertDoc, he, lookupDoc, ha, ih, Ne.symm h]

/-- Helper: a bulk upsert does not touch documents whose address is absent
from the response. -/
theorem applyBulkUpsert_not_mem (resp : List (ℕ × FetchedTokenData)) :
    ∀ (store : List (ℕ × PriceDoc)) (now addr : ℕ),
      addr ∉ resp.map Prod.fst →
      lookupDoc (applyBulkUpsert store resp now) addr = lookupDoc store addr := by
  induction resp with
  | nil => intro store now addr _; rfl
  | cons e rest ih =>
    intro store now addr h
    simp only [List.map_cons, List.mem_cons] at h
    push_neg at h
    show lookupDoc
      (applyBulkUpsert (upsertDoc store e.1 (docOfFetched e.2 now)) rest now) addr =
      lookupDoc store addr
    rw [ih _ now addr h.2, lookupDoc_upsertDoc_ne store e.1 addr _ (Ne.symm h.1)]

/-- Helper: a bulk upsert writes, for every address present in the
response (with addresses distinct as produced by Object.entries), that
address's fetched data stamped with the write time. -/
theorem applyBulkUpsert_mem (resp : List (ℕ × FetchedTokenData)) :
    ∀ (store : List (ℕ × PriceDoc)) (now addr : ℕ) (d : FetchedTokenData),
      (resp.map Prod.fst).Nodup → (addr, d) ∈ resp →
      lookupDoc (applyBulkUpsert store resp now) addr =
        some (docOfFetched d now) := by
  induction resp with
  | nil => intro _ _ _ _ _ h; cases h
  | cons e rest ih =>
    intro store now addr d hnd hmem
    simp only [List.map_cons, List.nodup_cons] at hnd
    rcases List.mem_cons.mp hmem with heq | hmem'
    · subst heq
      show lookupDoc
        (applyBulkUpsert (upsertDoc store addr (docOfFetched d now)) rest now) addr =
        some (docOfFetched d now)
      rw [applyBulkUpsert_not_mem rest _ now addr (by simpa using hnd.1),
        lookupDoc_upsertDoc_self]
    · exact ih _ now addr d hnd.2 hmem'

/-- C7 counterexample: on the batch-service path an address absent from
the aggregator response is not skipped — the token document is still
saved with a fresh last_updated (9 replacing 2), so its prior record and
timestamp are not left unchanged. -/
theorem processBatch_absent_address_written :
    (processBatchToken ⟨1, 1, 1, 0, 18, none, 2, 0⟩ none none 9).last_updated = 9 ∧
    processBatchToken ⟨1, 1, 1, 0, 18, none, 2, 0⟩ none none 9 ≠
      ⟨1, 1, 1, 0, 18, none, 2, 0⟩ :=
  ⟨rfl, fun h => absurd (congrArg TokenRec.last_updated h) (by decide)⟩

/-- C7 amended: on the poller's bulk-upsert path the claim holds —
addresses absent from the aggregator response are skipped with no store
write while every present address is upserted with its fetched fields and
a fresh last_updated, and an absent address never affects the other
upserts; on the batch-service path, however, an absent address is still
written: the token is saved with a fresh last_updated timestamp. -/
theorem bulk_upsert_semantics :
    (∀ (store : List (ℕ × PriceDoc)) (resp : List (ℕ × FetchedTokenData))
        (now addr : ℕ),
        addr ∉ resp.map Prod.fst →
        lookupDoc (applyBulkUpsert store resp now) addr = lookupDoc store addr) ∧
    (∀ (store : List (ℕ × PriceDoc)) (resp : List (ℕ × FetchedTokenData))
        (now addr : ℕ) (d : FetchedTokenData),
        (resp.map Prod.fst).Nodup → (addr, d) ∈ resp →
        lookupDoc (applyBulkUpsert store resp now) addr =
          some (docOfFetched d now)) ∧
    (∀ (rec : TokenRec) (cs : Option ℚ) (now : ℕ),
        (processBatchToken rec none cs now).last_updated = now) :=
  ⟨fun store resp now addr h => applyBulkUpsert_not_mem resp store now addr h,
   fun store resp now addr d hnd hmem => applyBulkUpsert_mem resp store now addr d hnd hmem,
   fun rec cs now => rfl⟩

/-- Witness for C7 amended: in a store holding a document for address 1,
a response naming only address 2 leaves address 1 untouched and writes
address 2 with the fetched data stamped at time 9; meanwhile a
batch-service write with no aggregator entry still stamps time 4. -/
theorem bulk_upsert_semantics_witness :
    lookupDoc (applyBulkUpsert [(1, ⟨8, 8, 8, 8, 8, 1⟩)]
        [(2, ⟨3, 4, 5, 6, 7⟩)] 9) 1 = lookupDoc [(1, ⟨8, 8, 8, 8, 8, 1⟩)] 1 ∧
    lookupDoc (applyBulkUpsert [(1, ⟨8, 8, 8, 8, 8, 1⟩)]
        [(2, ⟨3, 4, 5, 6, 7⟩)] 9) 2 = some (docOfFetched ⟨3, 4, 5, 6, 7⟩ 9) ∧
    (processBatchToken ⟨1, 1, 1, 0, 18, none, 2, 0⟩ none none 4).last_updated = 4 :=
  ⟨bulk_upsert_semantics.1 _ _ 9 1 (by decide),
   bulk_upsert_semantics.2.1 _ _ 9 2 _ (by decide) (List.mem_cons_self _ _),
   bulk_upsert_semantics.2.2 _ none 4⟩

/-- Helper: the batch partition reassembles to the original list. -/
theorem chunksOfAux_flatten {α : Type} :
    ∀ (fuel : ℕ) (l : List α), l.length ≤ fuel →
      (chunksOfAux fuel l).flatten = l := by
  intro fuel
  induction fuel with
  | zero =>
    intro l hl
    cases l with
    | nil => rfl
    | cons a t => simp at hl
  | succ n ih =>
    intro l hl
    cases l with
    | nil => rfl
    | cons a t =>
      simp only [chunksOfAux, List.flatten_cons]
      rw [ih ((a :: t).drop 30)
        (by simp only [List.length_drop]; simp at hl ⊢; omega)]
      exact List.take_append_drop 30 (a :: t)

/-- Helper: every batch produced by the partition has at most 30
addresses. -/
theorem chunksOfAux_mem_length {α : Type} :
    ∀ (fuel : ℕ) (l : List α) (b : List α),
      b ∈ chunksOfAux fuel l → b.length ≤ 30 := by
  intro fuel
  induction fuel with
  | zero => intro l b hb; simp [chunksOfAux] at hb
  | succ n ih =>
    intro l b hb
    cases l with
    | nil => simp [chunksOfAux] at hb
    | cons a t =>
      rcases List.mem_cons.mp hb with h | h
      · subst h
        simp [List.length_take]
      · exact ih _ b h

/-- Helper: chunksOf30 reassembles to the original list. -/
theorem chunksOf30_flatten {α : Type} (l : List α) :
    (chunksOf30 l).flatten = l :=
  chunksOfAux_flatten l.length l le_rfl

/-- Helper: every chunk of chunksOf30 has length at most 30. -/
theorem chunksOf30_length_le {α : Type} (l : List α) :
    ∀ b ∈ chunksOf30 l, b.length ≤ 30 :=
  fun b hb => chunksOfAux_mem_length l.length l b hb

/-- C6: when price records exist and the budget guard admits the tick
(counter at most 28), the selection picks at most
(30 - counter) * 30 addresses, and those addresses are exactly the image
of a prefix of the price records sorted by ascending last_updated — every
selected record is at least as stale as every unselected one — and the
partition into batches of at most 30 addresses reassembles to exactly the
selection. -/
theorem updateTokenPrices_selection (prices : List PriceRec)
    (allTokens : List ℕ) (c : ℕ) (hp : prices ≠ []) (hc : c ≤ 28) :
    (selectTokens prices allTokens c).length ≤ (30 - c) * 30 ∧
    (∃ (sorted : List PriceRec) (k : ℕ),
        sorted.Perm prices ∧ sorted.Sorted byStaleness ∧
        selectTokens prices allTokens c = (sorted.take k).map (·.contractAddress) ∧
        ∀ x ∈ sorted.take k, ∀ y ∈ sorted.drop k,
          x.last_updated ≤ y.last_updated) ∧
    (chunksOf30 (selectTokens prices allTokens c)).flatten =
      selectTokens prices allTokens c ∧
    ∀ b ∈ chunksOf30 (selectTokens prices allTokens c), b.length ≤ 30 := by
  have hge : ¬ c ≥ 29 := by omega
  have hsorted : (oldestFirst prices).Sorted byStaleness :=
    List.sorted_insertionSort byStaleness prices
  have hperm : (oldestFirst prices).Perm prices :=
    List.perm_insertionSort byStaleness prices
  have hcross : ∀ k, ∀ x ∈ (oldestFirst prices).take k,
      ∀ y ∈ (oldestFirst prices).drop k, x.last_updated ≤ y.last_updated := by
    intro k x hx y hy
    have hpw : List.Pairwise byStaleness
        ((oldestFirst prices).take k ++ (oldestFirst prices).drop k) := by
      rw [List.take_append_drop]
      exact hsorted
    exact (List.pairwise_append.mp hpw).2.2 x hx y hy
  by_cases hA : allTokens.isEmpty = true
  · have hsel : selectTokens prices allTokens c = [] := by
      unfold selectTokens
      rw [if_neg hge, if_pos hA]
    refine ⟨?_, ⟨oldestFirst prices, 0, hperm, hsorted, by simp [hsel], ?_⟩, ?_, ?_⟩
    · simp [hsel]
    · intro x hx
      simp at hx
    · exact chunksOf30_flatten _
    · exact chunksOf30_length_le _
  · have hlen : ((oldestFirst prices).take 300).length > 0 := by
      rw [List.length_take]
      have hlp : 0 < (oldestFirst prices).length := by
        rw [hperm.length_eq]
        exact List.length_pos.mpr hp
      omega
    have hsel : selectTokens prices allTokens c =
        ((oldestFirst prices).take (min ((30 - c) * 30) 300)).map
          (·.contractAddress) := by
      unfold selectTokens
      rw [if_neg hge, if_neg hA]
      show (if ((oldestFirst prices).take 300).length > 0
          then ((oldestFirst prices).take 300).map (·.contractAddress)
          else allTokens).take ((30 - c) * 30) = _
      rw [if_pos hlen, List.map_take, List.take_take, ← List.map_take]
    refine ⟨?_, ⟨oldestFirst prices, min ((30 - c) * 30) 300, hperm, hsorted,
      hsel, hcross _⟩, ?_, ?_⟩
    · rw [hsel, List.length_map, List.length_take]
      exact le_trans (Nat.min_le_left _ _) (Nat.min_le_left _ _)
    · exact chunksOf30_flatten _
    · exact chunksOf30_length_le _

/-- Witness for C6: with two price records of which the one for address 2
is staler, a tick with counter 0 selects both addresses, stalest first,
within the budget bound. -/
theorem updateTokenPrices_selection_witness :
    selectTokens [⟨1, 5⟩, ⟨2, 3⟩] [1, 2] 0 = [2, 1] ∧
    (selectTokens [⟨1, 5⟩, ⟨2, 3⟩] [1, 2] 0).length ≤ (30 - 0) * 30 :=
  ⟨by decide,
    (updateTokenPrices_selection [⟨1, 5⟩, ⟨2, 3⟩] [1, 2] 0 (by decide)
      (by decide)).1⟩
